import Mathlib

/-!
Verification development for the `saas-pricing-mcp` server (`src/index.ts`).

The server is a thin adapter: it validates tool arguments with zod schemas,
issues one remote actor call, and post-processes the returned dataset records.
The only in-repo logic is the pricing comparison aggregator of the
`compare_saas_pricing` handler, the `discover_pricing_page` responder, the
input validators and the shape of the actor requests.  Those are embedded
below as total Lean functions.

Modelling conventions:
* JavaScript optional / possibly-`undefined` values are `Option`s.
* Numbers are rationals (`ℚ`); the arithmetic performed by the aggregator
  (comparison, multiplication, scaling by 12) is exact on the values involved.
  An `undefined` operand of `*` (which yields `NaN` in JS) is modelled by
  propagating `none`.
* JS truthiness tests on numbers (`if (input.teamSize)`,
  `filter(p => p.lowestPaidPrice)`) are falsy exactly on `undefined` and `0`.
* `Array.prototype.sort` with a consistent comparator is a stable sort;
  stable sorting is unique, so it is embedded as a stable insertion sort.
* Object references: `summary.cheapest` / `summary.mostExpensive` alias
  entries of `comparison.products`; a later per-object mutation
  (`p.estimatedTeamCost = ...`) is visible through the alias.  The mutation
  depends only on the object's own value, so aliasing is embedded by applying
  the very same per-object update to the selected entry.
-/

namespace SaasPricing

/-! ## Data model (actor dataset records, `src/index.ts` usage sites) -/

/-- Pricing object of a tier: `pricing.type` (e.g. "free", "paid") and
`pricing.perUnit` (e.g. "user", "flat"), each possibly absent. -/
structure Pricing where
  type : Option String
  perUnit : Option String
deriving DecidableEq, Repr

/-- One pricing tier of an extraction record. -/
structure Tier where
  name : Option String
  pricing : Option Pricing
  normalizedMonthlyPrice : Option ℚ
deriving DecidableEq, Repr

/-- One dataset record produced by the remote actor for one product. -/
structure ExtractionRecord where
  productName : Option String
  url : Option String
  tiers : Option (List Tier)
deriving DecidableEq, Repr

/-- One `estimatedTeamCost` entry: `{tier, monthly, yearly}`.
`none` in `monthly`/`yearly` models the JS `NaN` arising from an
`undefined` tier price. -/
structure TeamCost where
  tier : Option String
  monthly : Option ℚ
  yearly : Option ℚ
deriving DecidableEq, Repr

/-- Per-product summary built by the `compare_saas_pricing` handler. -/
structure Product where
  name : Option String
  url : Option String
  tierCount : Nat
  hasFreeTier : Option Bool
  lowestPaidPrice : Option ℚ
  tiers : Option (List Tier)
  estimatedTeamCost : Option (List TeamCost)
deriving DecidableEq, Repr

/-- The `ComparisonResult`: `products` plus the `summary` fields. -/
structure Comparison where
  products : List Product
  cheapest : Option Product
  mostExpensive : Option Product
  withFreeTier : List (Option String)
deriving DecidableEq, Repr

/-! ## JS primitives used by the handler -/

/-- JS truthiness of an optional number: `undefined` and `0` are falsy. -/
def truthyQ : Option ℚ → Bool
  | some q => decide (q ≠ 0)
  | none => false

/-- JS test `t.normalizedMonthlyPrice > 0` (false on `undefined`). -/
def optPos : Option ℚ → Bool
  | some q => decide (0 < q)
  | none => false

/-- Insertion of `x` into `l`, placing `x` before the first element `y` with
`le x y`.  Used to embed `Array.prototype.sort`. -/
def insertOrd (le : α → α → Bool) (x : α) : List α → List α
  | [] => [x]
  | y :: ys => if le x y then x :: y :: ys else y :: insertOrd le x ys

/-- Stable insertion sort.  ECMAScript requires `Array.prototype.sort` to be
stable, and a stable sort for a total preorder comparator is unique, so this
is the embedding of the source's `.sort(...)` calls (of which only sortedness
and stability are ever used, via `[0]`). -/
def insertionSort (le : α → α → Bool) : List α → List α
  | [] => []
  | x :: xs => insertOrd le x (insertionSort le xs)

/-- First element a stable sort by `le` would produce: the first occurrence
of a `le`-best element.  Proof-side companion of `insertionSort`. -/
def firstBest (le : α → α → Bool) : List α → Option α
  | [] => none
  | x :: xs =>
    match firstBest le xs with
    | none => some x
    | some m => if le x m then some x else some m

/-! ## The comparison aggregator (`compare_saas_pricing` handler) -/

/-- Sort key used by `a.normalizedMonthlyPrice - b.normalizedMonthlyPrice`;
every tier actually compared has a defined price (they passed the `> 0`
filter), so the `getD` default is never observed. -/
def tierKey (t : Tier) : ℚ := (t.normalizedMonthlyPrice).getD 0

/-- Sort key used by `a.lowestPaidPrice - b.lowestPaidPrice`; every product
actually compared has a defined `lowestPaidPrice`. -/
def prodKey (p : Product) : ℚ := (p.lowestPaidPrice).getD 0

/-- JS test `t.pricing?.type === "free"`. -/
def isFreeTier (t : Tier) : Bool := decide ((t.pricing).bind Pricing.type = some "free")

/-- JS test `t.pricing?.perUnit === "user"`. -/
def isPerSeat (t : Tier) : Bool := decide ((t.pricing).bind Pricing.perUnit = some "user")

/-- Embeds
`item.tiers?.filter(t => t.normalizedMonthlyPrice > 0)
  ?.sort((a,b) => a.normalizedMonthlyPrice - b.normalizedMonthlyPrice)[0]
  ?.normalizedMonthlyPrice`. -/
def lowestPaidPrice (tiers : Option (List Tier)) : Option ℚ :=
  ((insertionSort (fun a b => decide (tierKey a ≤ tierKey b))
      ((tiers.getD []).filter fun t => optPos t.normalizedMonthlyPrice)).head?).bind
    Tier.normalizedMonthlyPrice

/-- The per-product summary object built by `items.map(...)` in the handler.
`estimatedTeamCost` is not set at this stage. -/
def mkProduct (item : ExtractionRecord) : Product where
  name := item.productName
  url := item.url
  tierCount := (item.tiers.map List.length).getD 0
  hasFreeTier := item.tiers.map fun l => l.any isFreeTier
  lowestPaidPrice := lowestPaidPrice item.tiers
  tiers := item.tiers
  estimatedTeamCost := none

/-- One `{tier, monthly, yearly}` entry for team size `n`. -/
def teamCostEntry (n : ℚ) (t : Tier) : TeamCost where
  tier := t.name
  monthly := (t.normalizedMonthlyPrice).map (· * n)
  yearly := (t.normalizedMonthlyPrice).map (· * n * 12)

/-- Embeds `p.tiers?.filter(t => t.pricing?.perUnit === "user")?.map(...)`. -/
def teamCost (n : ℚ) (tiers : Option (List Tier)) : Option (List TeamCost) :=
  tiers.map fun l => (l.filter isPerSeat).map (teamCostEntry n)

/-- The mutation `p.estimatedTeamCost = ...` performed by the `forEach`. -/
def addTeamCost (n : ℚ) (p : Product) : Product :=
  { p with estimatedTeamCost := teamCost n p.tiers }

/-- The guarded mutation `if (input.teamSize) { products.forEach(...) }`
applied to one product object: the identity when `teamSize` is falsy. -/
def applyTeamCost (teamSize : Option ℚ) (p : Product) : Product :=
  if truthyQ teamSize then addTeamCost (teamSize.getD 0) p else p

/-- The full `compare_saas_pricing` aggregation: per-product summaries,
`summary.cheapest` / `summary.mostExpensive` (references into `products`,
resolved after the team-cost mutation), `summary.withFreeTier`, and the
optional team-cost pass. -/
def aggregate (teamSize : Option ℚ) (items : List ExtractionRecord) : Comparison :=
  let products0 := items.map mkProduct
  let paid := products0.filter fun p => truthyQ p.lowestPaidPrice
  let cheapest0 :=
    (insertionSort (fun a b => decide (prodKey a ≤ prodKey b)) paid).head?
  let mostExpensive0 :=
    (insertionSort (fun a b => decide (prodKey b ≤ prodKey a)) paid).head?
  { products := products0.map (applyTeamCost teamSize)
    cheapest := cheapest0.map (applyTeamCost teamSize)
    mostExpensive := mostExpensive0.map (applyTeamCost teamSize)
    withFreeTier := (products0.filter fun p => p.hasFreeTier = some true).map Product.name }

/-! ## Validators and actor requests -/

/-- Seed object `{url}` of `startUrls`. -/
structure Seed where
  url : String
deriving DecidableEq, Repr

/-- Shape of the remote actor call's input object; absent fields are `none`. -/
structure ActorRequest where
  startUrls : List Seed
  proxyTier : Option String
  extractFeatures : Option Bool
  normalizePricing : Option Bool
  maxRequestsPerCrawl : Option Nat
  discoverPricingPage : Option Bool
deriving DecidableEq, Repr

/-- Parsed `extract_saas_pricing` arguments after zod defaults. -/
structure ExtractInput where
  urls : List String
  proxyTier : String
  extractFeatures : Bool
deriving DecidableEq, Repr

/-- Parsed `compare_saas_pricing` arguments. -/
structure CompareInput where
  urls : List String
  teamSize : Option ℚ
deriving DecidableEq, Repr

/-- zod `z.array(z.string().url())`: accepts any array each of whose elements
passes the URL check (the check itself lives in the zod library and is
abstracted as `validUrl`).  There is no length constraint. -/
def parseUrlList (validUrl : String → Bool) (urls : List String) : Option (List String) :=
  if urls.all validUrl then some urls else none

/-- zod parse of `ComparePricingInput` (`urls` plus optional `teamSize`). -/
def parseCompareInput (validUrl : String → Bool) (urls : List String)
    (teamSize : Option ℚ) : Option CompareInput :=
  (parseUrlList validUrl urls).map fun us => { urls := us, teamSize := teamSize }

/-- zod parse of `ExtractPricingInput`: `urls` element-validated, `proxyTier`
restricted to the enum with default `"datacenter"`, `extractFeatures` with
default `true`; the parse of the object succeeds iff every field validates. -/
def parseExtractInput (validUrl : String → Bool) (urls : List String)
    (proxyTier : Option String) (extractFeatures : Option Bool) : Option ExtractInput :=
  if urls.all validUrl = true ∧
      (proxyTier = none ∨ proxyTier = some "datacenter" ∨ proxyTier = some "residential") then
    some { urls := urls, proxyTier := proxyTier.getD "datacenter",
           extractFeatures := extractFeatures.getD true }
  else none

/-- Actor call issued by the `extract_saas_pricing` handler. -/
def extractRequest (inp : ExtractInput) : ActorRequest where
  startUrls := inp.urls.map Seed.mk
  proxyTier := some inp.proxyTier
  extractFeatures := some inp.extractFeatures
  normalizePricing := some true
  maxRequestsPerCrawl := some (inp.urls.length + 5)
  discoverPricingPage := none

/-- Actor call issued by the `compare_saas_pricing` handler.  Note: the
source passes no `maxRequestsPerCrawl` here. -/
def compareRequest (inp : CompareInput) : ActorRequest where
  startUrls := inp.urls.map Seed.mk
  proxyTier := some "datacenter"
  extractFeatures := some true
  normalizePricing := some true
  maxRequestsPerCrawl := none
  discoverPricingPage := none

/-- Actor call issued by the `discover_pricing_page` handler. -/
def discoverRequest (url : String) : ActorRequest where
  startUrls := [⟨url⟩]
  proxyTier := none
  extractFeatures := none
  normalizePricing := none
  maxRequestsPerCrawl := some 5
  discoverPricingPage := some true

/-- The `compare_saas_pricing` handler as seen from outside: validate, issue
exactly one actor request, aggregate the records the actor returned.
`none` models the zod parse throwing (caught as a tool error). -/
def compareTool (validUrl : String → Bool) (urls : List String) (teamSize : Option ℚ)
    (items : List ExtractionRecord) : Option (ActorRequest × Comparison) :=
  (parseCompareInput validUrl urls teamSize).map fun inp =>
    (compareRequest inp, aggregate inp.teamSize items)

/-- The `extract_saas_pricing` handler up to its single actor request. -/
def extractTool (validUrl : String → Bool) (urls : List String)
    (proxyTier : Option String) (extractFeatures : Option Bool) : Option ActorRequest :=
  (parseExtractInput validUrl urls proxyTier extractFeatures).map extractRequest

/-! ## The discovery responder (`discover_pricing_page` handler) -/

/-- One record of a discovery run; only its `url` is consulted. -/
structure DiscoveryRecord where
  url : Option String
deriving DecidableEq, Repr

/-- Embeds `const result = items[0]; result?.url ? found : notFound`.
The truthiness test on `result?.url` is falsy on a missing record, a missing
`url` field, and the empty string. -/
def discoverRespond (requested : String) (items : List DiscoveryRecord) : String :=
  match items.head? with
  | some r =>
    match r.url with
    | some u =>
      if u.isEmpty then "Could not find pricing page for " ++ requested
      else "Found pricing page: " ++ u
    | none => "Could not find pricing page for " ++ requested
  | none => "Could not find pricing page for " ++ requested

/-! ## Specification-side description -/

/-- Modelled from the spec's words for comparison with `lowestPaidPrice`:
the list of strictly positive `normalizedMonthlyPrice` values of a record's
tiers, in tier order (absent `tiers` contributing nothing). -/
def positivePrices (tiers : Option (List Tier)) : List ℚ :=
  (tiers.getD []).filterMap fun t =>
    (t.normalizedMonthlyPrice).bind fun q => if 0 < q then some q else none

/-! ## Concrete demo data (used by witnesses and counterexamples) -/

/-- Paid per-seat tier at 8 USD/month (the spec's team-cost example). -/
def tierPro : Tier :=
  { name := some "Pro", pricing := some { type := some "paid", perUnit := some "user" },
    normalizedMonthlyPrice := some 8 }

/-- Free tier with a zero normalized price. -/
def tierFree : Tier :=
  { name := some "Free", pricing := some { type := some "free", perUnit := none },
    normalizedMonthlyPrice := some 0 }

/-- Flat paid tier at 10 USD/month. -/
def tierBasicA : Tier :=
  { name := some "Basic", pricing := some { type := some "paid", perUnit := some "flat" },
    normalizedMonthlyPrice := some 10 }

/-- Flat paid tier at 5 USD/month. -/
def tierBasicB : Tier :=
  { name := some "Basic", pricing := some { type := some "paid", perUnit := some "flat" },
    normalizedMonthlyPrice := some 5 }

/-- Product A of the spec's selection example (`lowestPaidPrice = 10`). -/
def recA : ExtractionRecord :=
  { productName := some "A", url := some "https://a.example", tiers := some [tierBasicA] }

/-- Product B of the spec's selection example (`lowestPaidPrice = 5`). -/
def recB : ExtractionRecord :=
  { productName := some "B", url := some "https://b.example", tiers := some [tierBasicB] }

/-- Product C of the spec's selection example (no paid tier). -/
def recC : ExtractionRecord :=
  { productName := some "C", url := some "https://c.example", tiers := some [tierFree] }

/-- Product with a single per-seat tier priced 8. -/
def recPro : ExtractionRecord :=
  { productName := some "ProApp", url := some "https://pro.example", tiers := some [tierPro] }

/-- Malformed record: no `tiers` field at all. -/
def recNoTiers : ExtractionRecord :=
  { productName := some "Empty", url := none, tiers := none }

/-! ## Generic lemmas about the sort embedding -/

/-- Head of the insertion sort, computed by `firstBest`. -/
theorem head?_insertionSort (le : α → α → Bool) (l : List α) :
    (insertionSort le l).head? = firstBest le l := by
  induction l with
  | nil => rfl
  | cons x xs ih =>
    show (insertOrd le x (insertionSort le xs)).head? =
      (match firstBest le xs with
       | none => some x
       | some m => if le x m then some x else some m)
    rw [← ih]
    generalize insertionSort le xs = s
    cases s with
    | nil => rfl
    | cons y ys =>
      cases h : le x y with
      | true => simp [insertOrd, h]
      | false => simp [insertOrd, h]

/-- The first best element exists exactly on non-empty lists. -/
theorem firstBest_eq_none (le : α → α → Bool) (l : List α) :
    firstBest le l = none ↔ l = [] := by
  cases l with
  | nil => simp [firstBest]
  | cons x xs =>
    cases hfb : firstBest le xs with
    | none => simp [firstBest, hfb]
    | some m =>
      by_cases h : le x m = true
      · simp [firstBest, hfb, h]
      · simp [firstBest, hfb, h]

/-- A first best element is an element. -/
theorem firstBest_mem (le : α → α → Bool) {l : List α} {m : α}
    (h : firstBest le l = some m) : m ∈ l := by
  induction l generalizing m with
  | nil => simp [firstBest] at h
  | cons x xs ih =>
    cases hfb : firstBest le xs with
    | none =>
      simp only [firstBest, hfb] at h
      obtain rfl : x = m := by injection h
      exact List.mem_cons_self _ _
    | some b =>
      simp only [firstBest, hfb] at h
      by_cases hle : le x b = true
      · rw [if_pos hle] at h
        obtain rfl : x = m := by injection h
        exact List.mem_cons_self _ _
      · rw [if_neg hle] at h
        obtain rfl : b = m := by injection h
        exact List.mem_cons_of_mem _ (ih hfb)

/-- What the head of a stable sort by a total preorder is: a best element,
every strictly earlier element being strictly worse (first occurrence wins). -/
theorem firstBest_spec {R : α → α → Prop} [DecidableRel R]
    (total : ∀ a b, R a b ∨ R b a) (htrans : ∀ a b c, R a b → R b c → R a c)
    {l : List α} {m : α}
    (h : firstBest (fun a b => decide (R a b)) l = some m) :
    (∀ x ∈ l, R m x) ∧ ∃ l1 l2, l = l1 ++ m :: l2 ∧ ∀ x ∈ l1, ¬ R x m := by
  induction l generalizing m with
  | nil => simp [firstBest] at h
  | cons x xs ih =>
    cases hfb : firstBest (fun a b => decide (R a b)) xs with
    | none =>
      simp only [firstBest, hfb] at h
      obtain rfl : x = m := by injection h
      have hx : xs = [] := (firstBest_eq_none _ _).mp hfb
      subst hx
      refine ⟨?_, [], [], rfl, by simp⟩
      intro y hy
      rcases List.mem_singleton.mp hy with rfl
      rcases total y y with h' | h' <;> exact h'
    | some b =>
      simp only [firstBest, hfb] at h
      obtain ⟨hmin, l1, l2, hdecomp, hpre⟩ := ih hfb
      by_cases hle : R x b
      · rw [if_pos (decide_eq_true hle)] at h
        obtain rfl : x = m := by injection h
        refine ⟨?_, [], xs, rfl, by simp⟩
        intro y hy
        rcases List.mem_cons.mp hy with rfl | hy
        · rcases total y y with h' | h' <;> exact h'
        · exact htrans _ _ _ hle (hmin y hy)
      · rw [if_neg (by simpa using hle)] at h
        obtain rfl : b = m := by injection h
        refine ⟨?_, x :: l1, l2, by simp [hdecomp], ?_⟩
        · intro y hy
          rcases List.mem_cons.mp hy with rfl | hy
          · rcases total y b with h' | h'
            · exact absurd h' hle
            · exact h'
          · exact hmin y hy
        · intro y hy
          rcases List.mem_cons.mp hy with rfl | hy
          · exact hle
          · exact hpre y hy

/-- A decomposition of a filtered list lifts to the original list. -/
theorem filter_eq_append_cons {p : α → Bool} :
    ∀ {l l1 l2 : List α} {x : α}, l.filter p = l1 ++ x :: l2 →
      ∃ m1 m2, l = m1 ++ x :: m2 ∧ m1.filter p = l1 ∧ m2.filter p = l2 := by
  intro l
  induction l with
  | nil =>
    intro l1 l2 x h
    rw [List.filter_nil] at h
    cases l1 <;> simp_all
  | cons a as ih =>
    intro l1 l2 x h
    by_cases hp : p a = true
    · rw [List.filter_cons_of_pos hp] at h
      cases l1 with
      | nil =>
        simp only [List.nil_append, List.cons.injEq] at h
        obtain ⟨rfl, h2⟩ := h
        exact ⟨[], as, by simp, by simp, h2⟩
      | cons b l1' =>
        simp only [List.cons_append, List.cons.injEq] at h
        obtain ⟨rfl, h2⟩ := h
        obtain ⟨m1, m2, rfl, hm1, hm2⟩ := ih h2
        exact ⟨a :: m1, m2, rfl, by rw [List.filter_cons_of_pos hp, hm1], hm2⟩
    · rw [List.filter_cons_of_neg (by simpa using hp)] at h
      obtain ⟨m1, m2, rfl, hm1, hm2⟩ := ih h
      exact ⟨a :: m1, m2, rfl, by rw [List.filter_cons_of_neg (by simpa using hp), hm1], hm2⟩

/-! ## Basic facts about the aggregator's pieces -/

/-- Unfolding of JS truthiness on an optional number. -/
theorem truthyQ_eq_true {q : Option ℚ} : truthyQ q = true ↔ ∃ v, q = some v ∧ v ≠ 0 := by
  cases q <;> simp [truthyQ]

/-- Unfolding of the JS test `price > 0`. -/
theorem optPos_eq_true {q : Option ℚ} : optPos q = true ↔ ∃ v, q = some v ∧ 0 < v := by
  cases q <;> simp [optPos]

/-- The source's sort-based minimum, read through `firstBest`. -/
theorem lowestPaidPrice_eq_firstBest (tiers : Option (List Tier)) :
    lowestPaidPrice tiers =
      (firstBest (fun a b => decide (tierKey a ≤ tierKey b))
        ((tiers.getD []).filter fun t => optPos t.normalizedMonthlyPrice)).bind
        Tier.normalizedMonthlyPrice := by
  unfold lowestPaidPrice
  rw [head?_insertionSort]

/-- A defined `lowestPaidPrice` is strictly positive. -/
theorem lowestPaidPrice_pos {tiers : Option (List Tier)} {q : ℚ}
    (h : lowestPaidPrice tiers = some q) : 0 < q := by
  rw [lowestPaidPrice_eq_firstBest] at h
  obtain ⟨t, hfb, hnm⟩ := Option.bind_eq_some.mp h
  have hmem := firstBest_mem _ hfb
  have hpos := (List.mem_filter.mp hmem).2
  obtain ⟨v, hv, hvpos⟩ := optPos_eq_true.mp hpos
  rw [hv] at hnm
  obtain rfl : v = q := by injection hnm
  exact hvpos

/-- The spec-side positive-price list is the projection of the source's
filtered tier list. -/
theorem positivePrices_eq (tiers : Option (List Tier)) :
    positivePrices tiers =
      ((tiers.getD []).filter fun t => optPos t.normalizedMonthlyPrice).map tierKey := by
  unfold positivePrices
  induction tiers.getD [] with
  | nil => rfl
  | cons t l ih =>
    cases hn : t.normalizedMonthlyPrice with
    | none =>
      rw [List.filterMap_cons, List.filter_cons]
      simp [hn, optPos, ih]
    | some v =>
      by_cases hv : 0 < v
      · rw [List.filterMap_cons, List.filter_cons]
        simp [hn, optPos, hv, tierKey, ih]
      · rw [List.filterMap_cons, List.filter_cons]
        simp [hn, optPos, hv, ih]

/-! ## Facts about the team-cost mutation and the aggregate's shape -/

/-- The team-cost mutation leaves `lowestPaidPrice` unchanged. -/
theorem applyTeamCost_lowestPaidPrice (teamSize : Option ℚ) (p : Product) :
    (applyTeamCost teamSize p).lowestPaidPrice = p.lowestPaidPrice := by
  unfold applyTeamCost addTeamCost
  split <;> rfl

/-- The team-cost mutation leaves `tiers` unchanged. -/
theorem applyTeamCost_tiers (teamSize : Option ℚ) (p : Product) :
    (applyTeamCost teamSize p).tiers = p.tiers := by
  unfold applyTeamCost addTeamCost
  split <;> rfl

/-- The team-cost mutation leaves `tierCount` unchanged. -/
theorem applyTeamCost_tierCount (teamSize : Option ℚ) (p : Product) :
    (applyTeamCost teamSize p).tierCount = p.tierCount := by
  unfold applyTeamCost addTeamCost
  split <;> rfl

/-- The team-cost mutation leaves `hasFreeTier` unchanged. -/
theorem applyTeamCost_hasFreeTier (teamSize : Option ℚ) (p : Product) :
    (applyTeamCost teamSize p).hasFreeTier = p.hasFreeTier := by
  unfold applyTeamCost addTeamCost
  split <;> rfl

/-- Shape of the aggregated product list. -/
theorem aggregate_products (teamSize : Option ℚ) (items : List ExtractionRecord) :
    (aggregate teamSize items).products =
      (items.map mkProduct).map (applyTeamCost teamSize) := rfl

/-- The `summary.cheapest` reference, read through `firstBest`. -/
theorem aggregate_cheapest (teamSize : Option ℚ) (items : List ExtractionRecord) :
    (aggregate teamSize items).cheapest =
      (firstBest (fun a b => decide (prodKey a ≤ prodKey b))
        ((items.map mkProduct).filter fun p => truthyQ p.lowestPaidPrice)).map
        (applyTeamCost teamSize) := by
  simp only [aggregate, head?_insertionSort]

/-- The `summary.mostExpensive` reference, read through `firstBest`. -/
theorem aggregate_mostExpensive (teamSize : Option ℚ) (items : List ExtractionRecord) :
    (aggregate teamSize items).mostExpensive =
      (firstBest (fun a b => decide (prodKey b ≤ prodKey a))
        ((items.map mkProduct).filter fun p => truthyQ p.lowestPaidPrice)).map
        (applyTeamCost teamSize) := by
  simp only [aggregate, head?_insertionSort]

/-- Every `mkProduct` output has a positive `lowestPaidPrice` when defined. -/
theorem mkProduct_list_pos {items : List ExtractionRecord} :
    ∀ p ∈ items.map mkProduct, ∀ v, p.lowestPaidPrice = some v → 0 < v := by
  intro p hp v hv
  obtain ⟨item, -, rfl⟩ := List.mem_map.mp hp
  exact lowestPaidPrice_pos hv

/-- What the ascending selection over the paid products yields: a product
with minimal defined `lowestPaidPrice`, strictly below every earlier
qualifying product. -/
theorem select_min_spec {l0 : List Product}
    (pos : ∀ p ∈ l0, ∀ v, p.lowestPaidPrice = some v → 0 < v)
    {c0 : Product}
    (h : firstBest (fun a b => decide (prodKey a ≤ prodKey b))
          (l0.filter fun p => truthyQ p.lowestPaidPrice) = some c0) :
    ∃ cv m1 m2, c0.lowestPaidPrice = some cv ∧ l0 = m1 ++ c0 :: m2 ∧
      (∀ p ∈ l0, ∀ v, p.lowestPaidPrice = some v → cv ≤ v) ∧
      (∀ p ∈ m1, ∀ v, p.lowestPaidPrice = some v → cv < v) := by
  obtain ⟨hmin, l1, l2, hdecomp, hpre⟩ :=
    firstBest_spec (R := fun a b : Product => prodKey a ≤ prodKey b)
      (fun a b => le_total _ _) (fun a b c hab hbc => le_trans hab hbc) h
  have hc0 := (List.mem_filter.mp (firstBest_mem _ h)).2
  obtain ⟨cv, hcv, -⟩ := truthyQ_eq_true.mp hc0
  have hkey : prodKey c0 = cv := by simp [prodKey, hcv]
  obtain ⟨m1, m2, hl0, hm1, hm2⟩ := filter_eq_append_cons hdecomp
  refine ⟨cv, m1, m2, hcv, hl0, ?_, ?_⟩
  · intro p hp v hv
    have hpv : 0 < v := pos p hp v hv
    have hpmem : p ∈ l0.filter (fun p => truthyQ p.lowestPaidPrice) :=
      List.mem_filter.mpr ⟨hp, truthyQ_eq_true.mpr ⟨v, hv, ne_of_gt hpv⟩⟩
    have hle := hmin p hpmem
    rw [hkey] at hle
    simpa [prodKey, hv] using hle
  · intro p hp v hv
    have hpl0 : p ∈ l0 := by rw [hl0]; exact List.mem_append_left _ hp
    have hpv : 0 < v := pos p hpl0 v hv
    have hpl1 : p ∈ l1 := by
      rw [← hm1]
      exact List.mem_filter.mpr ⟨hp, truthyQ_eq_true.mpr ⟨v, hv, ne_of_gt hpv⟩⟩
    have hnle := hpre p hpl1
    rw [hkey] at hnle
    simp only [prodKey, hv, Option.getD_some] at hnle
    exact not_le.mp hnle

/-- What the descending selection over the paid products yields: a product
with maximal defined `lowestPaidPrice`, strictly above every earlier
qualifying product. -/
theorem select_max_spec {l0 : List Product}
    (pos : ∀ p ∈ l0, ∀ v, p.lowestPaidPrice = some v → 0 < v)
    {c0 : Product}
    (h : firstBest (fun a b => decide (prodKey b ≤ prodKey a))
          (l0.filter fun p => truthyQ p.lowestPaidPrice) = some c0) :
    ∃ cv m1 m2, c0.lowestPaidPrice = some cv ∧ l0 = m1 ++ c0 :: m2 ∧
      (∀ p ∈ l0, ∀ v, p.lowestPaidPrice = some v → v ≤ cv) ∧
      (∀ p ∈ m1, ∀ v, p.lowestPaidPrice = some v → v < cv) := by
  obtain ⟨hmin, l1, l2, hdecomp, hpre⟩ :=
    firstBest_spec (R := fun a b : Product => prodKey b ≤ prodKey a)
      (fun a b => le_total _ _) (fun a b c hab hbc => le_trans hbc hab) h
  have hc0 := (List.mem_filter.mp (firstBest_mem _ h)).2
  obtain ⟨cv, hcv, -⟩ := truthyQ_eq_true.mp hc0
  have hkey : prodKey c0 = cv := by simp [prodKey, hcv]
  obtain ⟨m1, m2, hl0, hm1, hm2⟩ := filter_eq_append_cons hdecomp
  refine ⟨cv, m1, m2, hcv, hl0, ?_, ?_⟩
  · intro p hp v hv
    have hpv : 0 < v := pos p hp v hv
    have hpmem : p ∈ l0.filter (fun p => truthyQ p.lowestPaidPrice) :=
      List.mem_filter.mpr ⟨hp, truthyQ_eq_true.mpr ⟨v, hv, ne_of_gt hpv⟩⟩
    have hle := hmin p hpmem
    rw [hkey] at hle
    simpa [prodKey, hv] using hle
  · intro p hp v hv
    have hpl0 : p ∈ l0 := by rw [hl0]; exact List.mem_append_left _ hp
    have hpv : 0 < v := pos p hpl0 v hv
    have hpl1 : p ∈ l1 := by
      rw [← hm1]
      exact List.mem_filter.mpr ⟨hp, truthyQ_eq_true.mpr ⟨v, hv, ne_of_gt hpv⟩⟩
    have hnle := hpre p hpl1
    rw [hkey] at hnle
    simp only [prodKey, hv, Option.getD_some] at hnle
    exact not_le.mp hnle

/-- The selection yields `none` exactly when no product qualifies. -/
theorem select_none_iff (le : Product → Product → Bool) {l0 : List Product}
    (pos : ∀ p ∈ l0, ∀ v, p.lowestPaidPrice = some v → 0 < v) :
    firstBest le (l0.filter fun p => truthyQ p.lowestPaidPrice) = none ↔
      ∀ p ∈ l0, p.lowestPaidPrice = none := by
  rw [firstBest_eq_none, List.filter_eq_nil_iff]
  constructor
  · intro h p hp
    cases hlpp : p.lowestPaidPrice with
    | none => rfl
    | some v =>
      have hpv : 0 < v := pos p hp v hlpp
      exact absurd (truthyQ_eq_true.mpr ⟨v, hlpp, ne_of_gt hpv⟩) (h p hp)
  · intro h p hp htru
    obtain ⟨v, hv, -⟩ := truthyQ_eq_true.mp htru
    rw [h p hp] at hv
    exact Option.noConfusion hv

/-! ## Claim theorems -/

/-- C1: `summary.cheapest` and `summary.mostExpensive` are computed only over
the products with a defined `lowestPaidPrice`: both are null exactly when no
product qualifies; otherwise `cheapest` is a qualifying entry of `products`
with minimal `lowestPaidPrice` preceded only by strictly more expensive
qualifying entries (first occurrence wins), and `mostExpensive` likewise with
maximal `lowestPaidPrice`. -/
theorem aggregate_summary_selection (teamSize : Option ℚ) (items : List ExtractionRecord) :
    ((aggregate teamSize items).cheapest = none ↔
      ∀ p ∈ (aggregate teamSize items).products, p.lowestPaidPrice = none)
    ∧ ((aggregate teamSize items).mostExpensive = none ↔
      ∀ p ∈ (aggregate teamSize items).products, p.lowestPaidPrice = none)
    ∧ (∀ c, (aggregate teamSize items).cheapest = some c →
        ∃ cv pre post, c.lowestPaidPrice = some cv ∧
          (aggregate teamSize items).products = pre ++ c :: post ∧
          (∀ p ∈ (aggregate teamSize items).products, ∀ v,
            p.lowestPaidPrice = some v → cv ≤ v) ∧
          (∀ p ∈ pre, ∀ v, p.lowestPaidPrice = some v → cv < v))
    ∧ (∀ m, (aggregate teamSize items).mostExpensive = some m →
        ∃ mv pre post, m.lowestPaidPrice = some mv ∧
          (aggregate teamSize items).products = pre ++ m :: post ∧
          (∀ p ∈ (aggregate teamSize items).products, ∀ v,
            p.lowestPaidPrice = some v → v ≤ mv) ∧
          (∀ p ∈ pre, ∀ v, p.lowestPaidPrice = some v → v < mv)) := by
  have pos := @mkProduct_list_pos items
  have hprods := aggregate_products teamSize items
  have hnone : (∀ p ∈ (items.map mkProduct).map (applyTeamCost teamSize),
      p.lowestPaidPrice = none) ↔ ∀ p ∈ items.map mkProduct, p.lowestPaidPrice = none := by
    constructor
    · intro h p hp
      have h' := h _ (List.mem_map_of_mem _ hp)
      rwa [applyTeamCost_lowestPaidPrice] at h'
    · intro h p hp
      obtain ⟨p0, hp0, rfl⟩ := List.mem_map.mp hp
      rw [applyTeamCost_lowestPaidPrice]
      exact h p0 hp0
  refine ⟨?_, ?_, ?_, ?_⟩
  · rw [aggregate_cheapest, Option.map_eq_none', select_none_iff _ pos, hprods]
    exact hnone.symm
  · rw [aggregate_mostExpensive, Option.map_eq_none', select_none_iff _ pos, hprods]
    exact hnone.symm
  · intro c hc
    rw [aggregate_cheapest] at hc
    obtain ⟨c0, hfb, rfl⟩ := Option.map_eq_some'.mp hc
    obtain ⟨cv, m1, m2, hcv, hl0, hmin, hstrict⟩ := select_min_spec pos hfb
    refine ⟨cv, m1.map (applyTeamCost teamSize), m2.map (applyTeamCost teamSize),
      ?_, ?_, ?_, ?_⟩
    · rw [applyTeamCost_lowestPaidPrice]; exact hcv
    · rw [hprods, hl0]; simp
    · intro p hp v hv
      rw [hprods] at hp
      obtain ⟨p0, hp0, rfl⟩ := List.mem_map.mp hp
      rw [applyTeamCost_lowestPaidPrice] at hv
      exact hmin p0 hp0 v hv
    · intro p hp v hv
      obtain ⟨p0, hp0, rfl⟩ := List.mem_map.mp hp
      rw [applyTeamCost_lowestPaidPrice] at hv
      exact hstrict p0 hp0 v hv
  · intro m hm
    rw [aggregate_mostExpensive] at hm
    obtain ⟨c0, hfb, rfl⟩ := Option.map_eq_some'.mp hm
    obtain ⟨mv, m1, m2, hmv, hl0, hmax, hstrict⟩ := select_max_spec pos hfb
    refine ⟨mv, m1.map (applyTeamCost teamSize), m2.map (applyTeamCost teamSize),
      ?_, ?_, ?_, ?_⟩
    · rw [applyTeamCost_lowestPaidPrice]; exact hmv
    · rw [hprods, hl0]; simp
    · intro p hp v hv
      rw [hprods] at hp
      obtain ⟨p0, hp0, rfl⟩ := List.mem_map.mp hp
      rw [applyTeamCost_lowestPaidPrice] at hv
      exact hmax p0 hp0 v hv
    · intro p hp v hv
      obtain ⟨p0, hp0, rfl⟩ := List.mem_map.mp hp
      rw [applyTeamCost_lowestPaidPrice] at hv
      exact hstrict p0 hp0 v hv

/-- Witness for C1 on the spec's example (A at 10, B at 5, C without a paid
tier): the cheapest entry is B's summary. -/
theorem aggregate_summary_selection_witness :
    ∃ cv pre post, (mkProduct recB).lowestPaidPrice = some cv ∧
      (aggregate none [recA, recB, recC]).products = pre ++ mkProduct recB :: post ∧
      (∀ p ∈ (aggregate none [recA, recB, recC]).products, ∀ v,
        p.lowestPaidPrice = some v → cv ≤ v) ∧
      (∀ p ∈ pre, ∀ v, p.lowestPaidPrice = some v → cv < v) :=
  (aggregate_summary_selection none [recA, recB, recC]).2.2.1 (mkProduct recB) (by decide)

/-- C2: a record's derived `lowestPaidPrice` is the minimum
`normalizedMonthlyPrice` among its strictly positively priced tiers, and is
undefined exactly when no tier has a strictly positive price (so a tier
priced 0 never contributes). -/
theorem lowestPaidPrice_spec (item : ExtractionRecord) :
    ((mkProduct item).lowestPaidPrice = none ↔ positivePrices item.tiers = [])
    ∧ (∀ v, (mkProduct item).lowestPaidPrice = some v →
        v ∈ positivePrices item.tiers ∧ ∀ w ∈ positivePrices item.tiers, v ≤ w) := by
  have hlp : (mkProduct item).lowestPaidPrice = lowestPaidPrice item.tiers := rfl
  rw [hlp, lowestPaidPrice_eq_firstBest, positivePrices_eq]
  constructor
  · constructor
    · intro h
      cases hfb : firstBest (fun a b => decide (tierKey a ≤ tierKey b))
          ((item.tiers.getD []).filter fun t => optPos t.normalizedMonthlyPrice) with
      | none =>
        rw [(firstBest_eq_none _ _).mp hfb]
        rfl
      | some t =>
        have hmem := firstBest_mem _ hfb
        obtain ⟨v, hv, -⟩ := optPos_eq_true.mp (List.mem_filter.mp hmem).2
        rw [hfb] at h
        simp [hv] at h
    · intro h
      rw [List.map_eq_nil_iff] at h
      rw [h]
      rfl
  · intro v hv
    obtain ⟨t, hfb, hnm⟩ := Option.bind_eq_some.mp hv
    have hmem := firstBest_mem _ hfb
    have hmin := (firstBest_spec (R := fun a b : Tier => tierKey a ≤ tierKey b)
      (fun a b => le_total _ _) (fun a b c hab hbc => le_trans hab hbc) hfb).1
    have hkey : tierKey t = v := by simp [tierKey, hnm]
    constructor
    · rw [← hkey]
      exact List.mem_map_of_mem _ hmem
    · intro w hw
      obtain ⟨x, hx, rfl⟩ := List.mem_map.mp hw
      rw [← hkey]
      exact hmin x hx

/-- Witness for C2: for product B (tiers priced 5 only), `lowestPaidPrice`
is 5, which belongs to and bounds the positive price list. -/
theorem lowestPaidPrice_spec_witness :
    (5 : ℚ) ∈ positivePrices recB.tiers ∧ ∀ w ∈ positivePrices recB.tiers, (5 : ℚ) ≤ w :=
  (lowestPaidPrice_spec recB).2 5 (by decide)

/-- C3 counterexample: for a record without a `tiers` field, `hasFreeTier` is
`undefined` (omitted from the serialized product), not `false` as claimed. -/
theorem hasFreeTier_absent_counterexample :
    (mkProduct recNoTiers).hasFreeTier = none ∧
      (mkProduct recNoTiers).hasFreeTier ≠ some false := by
  decide

/-- C3 amended: `hasFreeTier` is `true` iff `tiers` is present and some tier
has `pricing.type === "free"`; when `tiers` is absent, `hasFreeTier` is
`undefined` (never `true`, but not the value `false`). -/
theorem hasFreeTier_characterization (item : ExtractionRecord) :
    ((mkProduct item).hasFreeTier = none ↔ item.tiers = none)
    ∧ ∀ l, item.tiers = some l →
        ((mkProduct item).hasFreeTier = some true ↔
          ∃ t ∈ l, (t.pricing).bind Pricing.type = some "free") := by
  cases h : item.tiers with
  | none =>
    refine ⟨by simp [mkProduct, h], ?_⟩
    intro l hl
    exact Option.noConfusion hl
  | some l0 =>
    refine ⟨by simp [mkProduct, h], ?_⟩
    intro l hl
    obtain rfl : l0 = l := by injection hl
    simp [mkProduct, h, isFreeTier, List.any_eq_true]

/-- Witness for the amended C3: product C (one free tier) has
`hasFreeTier = true`. -/
theorem hasFreeTier_characterization_witness :
    (mkProduct recC).hasFreeTier = some true :=
  ((hasFreeTier_characterization recC).2 [tierFree] (by decide)).mpr
    ⟨tierFree, List.mem_singleton.mpr rfl, by decide⟩

/-- C4 counterexample: with `teamSize = 0` supplied, the team-cost block is
skipped (`if (input.teamSize)` is falsy), so the per-seat product keeps no
`estimatedTeamCost` at all instead of the claimed zero-cost sequence; and
with `teamSize = 10`, a product without a `tiers` field gets `undefined`
rather than the claimed empty sequence. -/
theorem estimatedTeamCost_claim_counterexample :
    ((aggregate (some 0) [recPro]).products.map Product.estimatedTeamCost = [none]
      ∧ ([none] : List (Option (List TeamCost))) ≠
          [some [{ tier := some "Pro", monthly := some 0, yearly := some 0 }]])
    ∧ ((aggregate (some 10) [recNoTiers]).products.map Product.estimatedTeamCost = [none]
      ∧ ([none] : List (Option (List TeamCost))) ≠ [some []]) := by
  refine ⟨⟨by decide, by decide⟩, ⟨by decide, by decide⟩⟩

/-- C4 amended: when the supplied `teamSize` is nonzero (truthy), every
product's `estimatedTeamCost` is, in tier order, the
`{tier, monthly = price * teamSize, yearly = price * teamSize * 12}` entries
of exactly its tiers with `pricing.perUnit === "user"`; a product whose
`tiers` list is present but has no per-seat tiers gets the empty sequence,
and a product without a `tiers` field gets `undefined`. -/
theorem estimatedTeamCost_characterization (n : ℚ) (hn : n ≠ 0)
    (items : List ExtractionRecord) :
    (aggregate (some n) items).products.map Product.estimatedTeamCost =
      items.map fun item =>
        (item.tiers).map fun l =>
          (l.filter fun t => decide ((t.pricing).bind Pricing.perUnit = some "user")).map
            fun t => { tier := t.name, monthly := (t.normalizedMonthlyPrice).map (· * n),
                       yearly := (t.normalizedMonthlyPrice).map (· * n * 12) } := by
  have htru : truthyQ (some n) = true := by simp [truthyQ, hn]
  rw [aggregate_products, List.map_map, List.map_map]
  refine List.map_congr_left ?_
  intro item hitem
  show (applyTeamCost (some n) (mkProduct item)).estimatedTeamCost = _
  unfold applyTeamCost
  rw [htru, if_pos rfl]
  rfl

/-- Witness for the amended C4: the spec's example, `teamSize = 10` and a
per-seat tier priced 8 giving `monthly = 80`, `yearly = 960`. -/
theorem estimatedTeamCost_characterization_witness :
    (aggregate (some 10) [recPro]).products.map Product.estimatedTeamCost =
      [some [{ tier := some "Pro", monthly := some 80, yearly := some 960 }]] := by
  have h := estimatedTeamCost_characterization 10 (by norm_num) [recPro]
  rw [h]
  simp [recPro, tierPro]
  norm_num

/-- C5 counterexample: the empty URL list passes validation for both tools
(even under a URL validator rejecting every string) and the comparison
handler still issues its remote request. -/
theorem emptyUrls_accepted_counterexample :
    parseCompareInput (fun _ => false) [] none = some { urls := [], teamSize := none }
    ∧ (compareTool (fun _ => false) [] none []).isSome = true
    ∧ parseExtractInput (fun _ => false) [] none none =
        some { urls := [], proxyTier := "datacenter", extractFeatures := true } := by
  refine ⟨by decide, by decide, by decide⟩

/-- C5 amended: the zod schemas check only that every element of `urls` is a
well-formed URL — an empty list vacuously passes for both tools and the
remote call is still issued; a `ValidationError` occurs exactly when some
element fails the URL check. -/
theorem urls_validation_characterization (validUrl : String → Bool) (urls : List String)
    (teamSize : Option ℚ) (items : List ExtractionRecord) :
    ((parseCompareInput validUrl urls teamSize).isSome ↔ urls.all validUrl = true)
    ∧ compareTool validUrl [] teamSize items =
        some (compareRequest { urls := [], teamSize := teamSize }, aggregate teamSize items)
    ∧ parseExtractInput validUrl [] none none =
        some { urls := [], proxyTier := "datacenter", extractFeatures := true } := by
  refine ⟨?_, ?_, ?_⟩
  · unfold parseCompareInput parseUrlList
    by_cases h : urls.all validUrl = true
    · simp [h]
    · simp [h]
  · unfold compareTool parseCompareInput parseUrlList
    simp
  · unfold parseExtractInput
    simp

/-- C6 counterexample: with `teamSize = 0` supplied, the team-cost
computation does not run at all (no `estimatedTeamCost` field), instead of
running and producing zero costs as claimed. -/
theorem teamSize_zero_skips_counterexample :
    (aggregate (some 0) [recPro]).products.map Product.estimatedTeamCost = [none]
    ∧ ([none] : List (Option (List TeamCost))) ≠
        [some [{ tier := some "Pro", monthly := some 0, yearly := some 0 }]] := by
  refine ⟨by decide, by decide⟩

/-- C6 amended: a supplied nonpositive `teamSize` is never rejected by
validation; a negative `teamSize` lets the team-cost computation run and
silently produce negative costs (e.g. `8 * n < 0` for the demo tier), while
`teamSize = 0` is falsy, so the computation is skipped entirely. -/
theorem teamSize_nonpositive_behavior (n : ℚ) (hneg : n < 0) :
    (∀ validUrl urls, (parseCompareInput validUrl urls (some n)).isSome = urls.all validUrl)
    ∧ (∀ validUrl urls, (parseCompareInput validUrl urls (some 0)).isSome = urls.all validUrl)
    ∧ (aggregate (some n) [recPro]).products.map Product.estimatedTeamCost =
        [some [{ tier := some "Pro", monthly := some (8 * n), yearly := some (8 * n * 12) }]]
    ∧ (8 : ℚ) * n < 0
    ∧ ∀ items, (aggregate (some 0) items).products.map Product.estimatedTeamCost =
        items.map fun _ => none := by
  refine ⟨?_, ?_, ?_, ?_, ?_⟩
  · intro validUrl urls
    unfold parseCompareInput parseUrlList
    cases h : urls.all validUrl <;> simp [h]
  · intro validUrl urls
    unfold parseCompareInput parseUrlList
    cases h : urls.all validUrl <;> simp [h]
  · have htru : truthyQ (some n) = true := by simp [truthyQ, hneg.ne]
    rw [aggregate_products]
    simp [applyTeamCost, htru, addTeamCost, mkProduct, recPro, tierPro, teamCost,
      teamCostEntry, isPerSeat]
  · exact mul_neg_of_pos_of_neg (by norm_num) hneg
  · intro items
    have hfalse : truthyQ (some 0) = false := by simp [truthyQ]
    rw [aggregate_products, List.map_map, List.map_map]
    refine List.map_congr_left ?_
    intro item hitem
    show (applyTeamCost (some 0) (mkProduct item)).estimatedTeamCost = none
    unfold applyTeamCost
    rw [hfalse, if_neg (by simp)]
    rfl

/-- Witness for the amended C6 at `teamSize = -3`: the computation runs and
produces the negative costs `-24` and `-288`. -/
theorem teamSize_nonpositive_behavior_witness :
    (aggregate (some (-3)) [recPro]).products.map Product.estimatedTeamCost =
      [some [{ tier := some "Pro", monthly := some (-24), yearly := some (-288) }]] := by
  have h := (teamSize_nonpositive_behavior (-3) (by norm_num)).2.2.1
  rw [h]
  norm_num

/-- C7 counterexample: the comparison actor call carries no
`maxRequestsPerCrawl` at all, not the crawl-budget cap `urls.length + 5` the
claim says it shares with the extraction request. -/
theorem compareRequest_noCrawlCap_counterexample :
    (compareRequest { urls := ["https://a.example"], teamSize := none }).maxRequestsPerCrawl
        = none
    ∧ (none : Option Nat) ≠ some (["https://a.example"].length + 5) := by
  refine ⟨rfl, by decide⟩

/-- C7 amended: a valid comparison call issues exactly one remote request
with the extraction request's `{url}` seeds and `normalizePricing = true`,
proxy tier fixed to `datacenter` and feature extraction fixed to `true`, but
with no crawl-budget cap, whereas the extraction request caps the crawl at
`urls.length + 5`. -/
theorem compare_request_shape (validUrl : String → Bool) (urls : List String)
    (teamSize : Option ℚ) (items : List ExtractionRecord)
    (h : urls.all validUrl = true) :
    compareTool validUrl urls teamSize items =
      some ({ startUrls := urls.map Seed.mk, proxyTier := some "datacenter",
              extractFeatures := some true, normalizePricing := some true,
              maxRequestsPerCrawl := none, discoverPricingPage := none },
            aggregate teamSize items)
    ∧ ∀ pt ef inp, parseExtractInput validUrl urls pt ef = some inp →
        (extractRequest inp).startUrls = urls.map Seed.mk
        ∧ (extractRequest inp).normalizePricing = some true
        ∧ (extractRequest inp).maxRequestsPerCrawl = some (urls.length + 5) := by
  constructor
  · unfold compareTool parseCompareInput parseUrlList
    simp [h, compareRequest]
  · intro pt ef inp hinp
    unfold parseExtractInput at hinp
    split at hinp
    · obtain rfl : _ = inp := by injection hinp
      exact ⟨rfl, rfl, rfl⟩
    · exact Option.noConfusion hinp

/-- Witness for the amended C7 on a one-URL call. -/
theorem compare_request_shape_witness :
    compareTool (fun _ => true) ["https://a.example"] none [] =
      some ({ startUrls := [⟨"https://a.example"⟩], proxyTier := some "datacenter",
              extractFeatures := some true, normalizePricing := some true,
              maxRequestsPerCrawl := none, discoverPricingPage := none },
            aggregate none []) := by
  have h := (compare_request_shape (fun _ => true) ["https://a.example"] none [] (by decide)).1
  simpa using h

/-- C8: the aggregator is a total function producing one product summary per
input record; a record without `tiers` contributes `tierCount = 0`, no free
tier and an undefined lowest price, and a record whose tiers all lack a
`normalizedMonthlyPrice` likewise gets an undefined lowest price — malformed
records degrade instead of aborting the comparison. -/
theorem aggregate_total_on_malformed (teamSize : Option ℚ) (items : List ExtractionRecord) :
    (aggregate teamSize items).products.length = items.length
    ∧ (∀ (i : Nat) (item : ExtractionRecord), items[i]? = some item → item.tiers = none →
        ∃ p, (aggregate teamSize items).products[i]? = some p ∧
          p.tierCount = 0 ∧ p.hasFreeTier ≠ some true ∧ p.lowestPaidPrice = none)
    ∧ (∀ (i : Nat) (item : ExtractionRecord) (l : List Tier),
        items[i]? = some item → item.tiers = some l →
        (∀ t ∈ l, t.normalizedMonthlyPrice = none) →
        ∃ p, (aggregate teamSize items).products[i]? = some p ∧
          p.tierCount = l.length ∧ p.lowestPaidPrice = none) := by
  have hget : ∀ i : Nat, (aggregate teamSize items).products[i]? =
      (items[i]?).map (fun item => applyTeamCost teamSize (mkProduct item)) := by
    intro i
    rw [aggregate_products, List.getElem?_map, List.getElem?_map, Option.map_map]
    rfl
  refine ⟨?_, ?_, ?_⟩
  · rw [aggregate_products]
    simp
  · intro i item hi htiers
    refine ⟨applyTeamCost teamSize (mkProduct item), by rw [hget, hi]; rfl, ?_, ?_, ?_⟩
    · rw [applyTeamCost_tierCount]
      simp [mkProduct, htiers]
    · rw [applyTeamCost_hasFreeTier]
      simp [mkProduct, htiers]
    · rw [applyTeamCost_lowestPaidPrice]
      show lowestPaidPrice item.tiers = none
      rw [htiers]
      rfl
  · intro i item l hi htiers hprices
    refine ⟨applyTeamCost teamSize (mkProduct item), by rw [hget, hi]; rfl, ?_, ?_⟩
    · rw [applyTeamCost_tierCount]
      simp [mkProduct, htiers]
    · rw [applyTeamCost_lowestPaidPrice]
      show lowestPaidPrice item.tiers = none
      rw [htiers, lowestPaidPrice_eq_firstBest]
      have hfil : l.filter (fun t => optPos t.normalizedMonthlyPrice) = [] := by
        rw [List.filter_eq_nil_iff]
        intro t ht
        simp [optPos, hprices t ht]
      simp [hfil, firstBest]

/-- Witness for C8: on the record without a `tiers` field, the aggregator
still produces a product summary with the degraded values. -/
theorem aggregate_total_on_malformed_witness :
    ∃ p, (aggregate (some 10) [recNoTiers]).products[0]? = some p ∧
      p.tierCount = 0 ∧ p.hasFreeTier ≠ some true ∧ p.lowestPaidPrice = none :=
  (aggregate_total_on_malformed (some 10) [recNoTiers]).2.1 0 recNoTiers (by decide) (by decide)

/-- C9 counterexample: a first record whose `url` is the empty string does
have a `url`, yet the responder reports not-found (the JS truthiness test on
`result?.url` is false on `""`), contradicting the claim. -/
theorem discover_emptyUrl_counterexample :
    discoverRespond "https://x.example" [{ url := some "" }] =
      "Could not find pricing page for https://x.example"
    ∧ discoverRespond "https://x.example" [{ url := some "" }] ≠
      "Found pricing page: " := by
  refine ⟨rfl, by decide⟩

/-- C9 amended: the responder consults only the first record; it reports
`"Found pricing page: <url>"` iff that record exists and has a defined
non-empty `url`, and otherwise (no record, absent `url`, or empty-string
`url`) reports `"Could not find pricing page for <requested url>"`; further
records never influence the output. -/
theorem discoverRespond_characterization (requested : String) :
    (discoverRespond requested [] = "Could not find pricing page for " ++ requested)
    ∧ (∀ r rest, (r.url = none ∨ r.url = some "") →
        discoverRespond requested (r :: rest) =
          "Could not find pricing page for " ++ requested)
    ∧ (∀ r rest u, r.url = some u → u ≠ "" →
        discoverRespond requested (r :: rest) = "Found pricing page: " ++ u)
    ∧ (∀ r rest1 rest2,
        discoverRespond requested (r :: rest1) = discoverRespond requested (r :: rest2)) := by
  refine ⟨rfl, ?_, ?_, ?_⟩
  · intro r rest hr
    have hemp : "".isEmpty = true := rfl
    rcases hr with h | h <;> simp [discoverRespond, h, hemp]
  · intro r rest u hu hne
    have hie : u.isEmpty = false := by
      cases hiE : u.isEmpty
      · rfl
      · exact absurd ((String.isEmpty_iff u).mp hiE) hne
    simp [discoverRespond, hu, hie]
  · intro r rest1 rest2
    rfl

/-- Witness for the amended C9 on the spec's example discovery result. -/
theorem discoverRespond_characterization_witness :
    discoverRespond "https://x.example" [{ url := some "https://x.example/pricing" }] =
      "Found pricing page: https://x.example/pricing" := by
  have h := (discoverRespond_characterization "https://x.example").2.2.1
    { url := some "https://x.example/pricing" } [] "https://x.example/pricing" rfl (by decide)
  simpa using h

/-- C10: a non-null `summary.cheapest` / `summary.mostExpensive` is the very
entry of `products` it was selected from (a shared reference, embedded here
as the same per-object value after the shared mutation), so with a truthy
`teamSize` the `estimatedTeamCost` written into that product entry also
appears on the serialized summary field. -/
theorem summary_shares_team_cost (n : ℚ) (hn : n ≠ 0) (items : List ExtractionRecord) :
    (∀ c, (aggregate (some n) items).cheapest = some c →
        c ∈ (aggregate (some n) items).products ∧ c.estimatedTeamCost = teamCost n c.tiers)
    ∧ (∀ m, (aggregate (some n) items).mostExpensive = some m →
        m ∈ (aggregate (some n) items).products ∧
          m.estimatedTeamCost = teamCost n m.tiers) := by
  have htru : truthyQ (some n) = true := by simp [truthyQ, hn]
  have key : ∀ c0 : Product, c0 ∈ items.map mkProduct →
      applyTeamCost (some n) c0 ∈ (aggregate (some n) items).products ∧
        (applyTeamCost (some n) c0).estimatedTeamCost =
          teamCost n (applyTeamCost (some n) c0).tiers := by
    intro c0 hc0
    constructor
    · rw [aggregate_products]
      exact List.mem_map_of_mem _ hc0
    · rw [applyTeamCost_tiers]
      unfold applyTeamCost
      rw [htru, if_pos rfl]
      rfl
  constructor
  · intro c hc
    rw [aggregate_cheapest] at hc
    obtain ⟨c0, hfb, rfl⟩ := Option.map_eq_some'.mp hc
    exact key c0 (List.mem_filter.mp (firstBest_mem _ hfb)).1
  · intro m hm
    rw [aggregate_mostExpensive] at hm
    obtain ⟨c0, hfb, rfl⟩ := Option.map_eq_some'.mp hm
    exact key c0 (List.mem_filter.mp (firstBest_mem _ hfb)).1

/-- Witness for C10: with `teamSize = 1` on product B, the summary entry is a
`products` entry and carries the (empty) team-cost list the mutation wrote. -/
theorem summary_shares_team_cost_witness :
    applyTeamCost (some 1) (mkProduct recB) ∈ (aggregate (some 1) [recB]).products ∧
      (applyTeamCost (some 1) (mkProduct recB)).estimatedTeamCost =
        teamCost 1 (applyTeamCost (some 1) (mkProduct recB)).tiers :=
  (summary_shares_team_cost 1 (by norm_num) [recB]).1 _ (by decide)

end SaasPricing
